import Mathlib

/-!
Verification of the timeline-to-execution-plan compiler in
`src/python-renderer/server.py`.

Modelling conventions:
* Python floats are modelled as `ℚ` (exact rationals); the spec's
  "within floating tolerance" clauses become exact equalities here.
* Python strings are modelled as `List Char` wherever character content
  matters, and as `String` for opaque labels/ids.
* Python `str.replace` with a single-character pattern is modelled by
  `replace1` below (flatMap over characters), which is exact for the
  patterns used by the source.
* `dict.get(k, default)` lookups of probe results are modelled by a total
  function `probe : String → List String` (the empty list standing for
  `set()`), and python truthiness of a set by emptiness of the list.
-/

namespace VibeCut

/-! ### `_safe_name` (server.py line 26)

Python's `ch.isalnum()` is Unicode-aware, so the alphanumeric test is a
parameter `isAlnum`; the safety theorems only need that the path
separator is not alphanumeric. -/

def _safe_name (isAlnum : Char → Bool) (name : List Char) : List Char :=
  name.map fun ch => if isAlnum ch || ch ∈ ['.', '_', '-'] then ch else '_'

/-! ### Data model (project / settings documents as read by `render`) -/

structure MediaFile where
  id : String
  mtype : String      -- media["type"], the declared type
  duration : ℚ
  deriving DecidableEq

structure TextOverlay where
  content : List Char
  color : List Char
  fontFamily : List Char
  backgroundColor : Option (List Char)
  duration : ℚ
  deriving DecidableEq

structure Clip where
  id : String
  mediaId : String
  startTime : ℚ
  trimStart : ℚ
  trimEnd : ℚ
  speed : ℚ           -- clip.get("speed", 1.0): a missing key is the literal 1.0
  reverse : Bool
  textOverlay : Option TextOverlay
  deriving DecidableEq

structure Track where
  ttype : String
  clips : List Clip
  deriving DecidableEq

structure Project where
  duration : ℚ
  mediaFiles : List MediaFile
  tracks : List Track
  deriving DecidableEq

/-! ### `_clip_duration` / `_clip_source_duration` (server.py lines 61-68) -/

def _clip_duration (clip : Clip) (media : MediaFile) : ℚ :=
  max 0 (media.duration - clip.trimStart - clip.trimEnd) / max 0.01 clip.speed

def _clip_source_duration (clip : Clip) (media : MediaFile) : ℚ :=
  max 0 (media.duration - clip.trimStart - clip.trimEnd)

/-! ### drawtext escaping (server.py lines 95-106) -/

/-- Python `s.replace(t, r)` for a single-character pattern `t`. -/
def replace1 (s : List Char) (t : Char) (r : List Char) : List Char :=
  s.flatMap fun c => if c = t then r else [c]

def _escape_drawtext_text (value : List Char) : List Char :=
  replace1 (replace1 (replace1 (replace1 (replace1 value
    '\\' ['\\', '\\'])
    ':' ['\\', ':'])
    '\'' ['\\', '\''])
    '\n' ['\\', 'n'])
    '%' ['\\', '%']

def _escape_drawtext_value (value : List Char) : List Char :=
  replace1 (replace1 (replace1 value
    '\\' ['\\', '\\'])
    ':' ['\\', ':'])
    '\'' ['\\', '\'']

/-- Modelled from the spec: the external engine's unescaping of a drawtext
argument (the engine itself is out of scope, spec §4.5 and §8 only state
that its unescaping undoes the compiler's escaping).  A backslash makes the
following character literal, with the pair backslash-`n` standing for a
newline; all other characters pass through unchanged. -/
def engine_unescape : List Char → List Char
  | [] => []
  | [c] => [c]
  | c :: c2 :: rest =>
    if c = '\\' then (if c2 = 'n' then '\n' else c2) :: engine_unescape rest
    else c :: engine_unescape (c2 :: rest)

/-- The five reserved characters of spec §4.5. -/
def reservedChars : List Char := [':', '\\', '\'', '%', '\n']

/-- How one character is escaped (per the text-escaping of the source):
newline becomes backslash-`n`, every other reserved character is prefixed
with a backslash. -/
def escTextChar (c : Char) : List Char :=
  if c = '\\' then ['\\', '\\']
  else if c = ':' then ['\\', ':']
  else if c = '\'' then ['\\', '\'']
  else if c = '\n' then ['\\', 'n']
  else if c = '%' then ['\\', '%']
  else [c]

/-- Character-level description of `_escape_drawtext_value`. -/
def escValChar (c : Char) : List Char :=
  if c = '\\' then ['\\', '\\']
  else if c = ':' then ['\\', ':']
  else if c = '\'' then ['\\', '\'']
  else [c]

/-- An escaping function escapes all five reserved characters when it sends
each reserved character (as a one-character string) to its escaped form. -/
def escapesAllReserved (f : List Char → List Char) : Prop :=
  ∀ c ∈ reservedChars, f [c] = escTextChar c

instance (f : List Char → List Char) : Decidable (escapesAllReserved f) := by
  unfold escapesAllReserved; infer_instance

end VibeCut

namespace VibeCut

/-! ### Escaping lemmas -/

theorem replace1_append (a b : List Char) (t : Char) (r : List Char) :
    replace1 (a ++ b) t r = replace1 a t r ++ replace1 b t r := by
  simp [replace1]

theorem escape_text_append (a b : List Char) :
    _escape_drawtext_text (a ++ b) = _escape_drawtext_text a ++ _escape_drawtext_text b := by
  simp [_escape_drawtext_text, replace1_append]

theorem escape_value_append (a b : List Char) :
    _escape_drawtext_value (a ++ b) = _escape_drawtext_value a ++ _escape_drawtext_value b := by
  simp [_escape_drawtext_value, replace1_append]

theorem escape_text_single (c : Char) : _escape_drawtext_text [c] = escTextChar c := by
  by_cases h1 : c = '\\'
  · subst h1; decide
  by_cases h2 : c = ':'
  · subst h2; decide
  by_cases h3 : c = '\''
  · subst h3; decide
  by_cases h4 : c = '\n'
  · subst h4; decide
  by_cases h5 : c = '%'
  · subst h5; decide
  simp [_escape_drawtext_text, escTextChar, replace1, h1, h2, h3, h4, h5]

theorem escape_value_single (c : Char) : _escape_drawtext_value [c] = escValChar c := by
  by_cases h1 : c = '\\'
  · subst h1; decide
  by_cases h2 : c = ':'
  · subst h2; decide
  by_cases h3 : c = '\''
  · subst h3; decide
  simp [_escape_drawtext_value, escValChar, replace1, h1, h2, h3]

theorem escape_text_eq_flatMap (v : List Char) :
    _escape_drawtext_text v = v.flatMap escTextChar := by
  induction v with
  | nil => rfl
  | cons c s ih =>
    have hsplit : c :: s = [c] ++ s := rfl
    rw [hsplit, escape_text_append, ih, escape_text_single]; simp

theorem escape_value_eq_flatMap (v : List Char) :
    _escape_drawtext_value v = v.flatMap escValChar := by
  induction v with
  | nil => rfl
  | cons c s ih =>
    have hsplit : c :: s = [c] ++ s := rfl
    rw [hsplit, escape_value_append, ih, escape_value_single]; simp

theorem unescape_cons_ne (c : Char) (h : c ≠ '\\') (t : List Char) :
    engine_unescape (c :: t) = c :: engine_unescape t := by
  cases t with
  | nil => simp [engine_unescape]
  | cons c2 r => simp [engine_unescape, h]

theorem unescape_esc_pair (x : Char) (t : List Char) :
    engine_unescape ('\\' :: x :: t) = (if x = 'n' then '\n' else x) :: engine_unescape t := by
  simp [engine_unescape]

theorem unescape_escTextChar (c : Char) (t : List Char) :
    engine_unescape (escTextChar c ++ t) = c :: engine_unescape t := by
  by_cases h1 : c = '\\'
  · subst h1; rw [show escTextChar '\\' = ['\\', '\\'] from rfl]
    rw [List.cons_append, List.cons_append, unescape_esc_pair, if_neg (by decide), List.nil_append]
  by_cases h2 : c = ':'
  · subst h2; rw [show escTextChar ':' = ['\\', ':'] from rfl]
    rw [List.cons_append, List.cons_append, unescape_esc_pair, if_neg (by decide), List.nil_append]
  by_cases h3 : c = '\''
  · subst h3; rw [show escTextChar '\'' = ['\\', '\''] from rfl]
    rw [List.cons_append, List.cons_append, unescape_esc_pair, if_neg (by decide), List.nil_append]
  by_cases h4 : c = '\n'
  · subst h4; rw [show escTextChar '\n' = ['\\', 'n'] from rfl]
    rw [List.cons_append, List.cons_append, unescape_esc_pair, if_pos rfl, List.nil_append]
  by_cases h5 : c = '%'
  · subst h5; rw [show escTextChar '%' = ['\\', '%'] from rfl]
    rw [List.cons_append, List.cons_append, unescape_esc_pair, if_neg (by decide), List.nil_append]
  · have : escTextChar c = [c] := by simp [escTextChar, h1, h2, h3, h4, h5]
    rw [this, List.singleton_append, unescape_cons_ne c h1]

theorem unescape_escValChar (c : Char) (t : List Char) :
    engine_unescape (escValChar c ++ t) = c :: engine_unescape t := by
  by_cases h1 : c = '\\'
  · subst h1; rw [show escValChar '\\' = ['\\', '\\'] from rfl]
    rw [List.cons_append, List.cons_append, unescape_esc_pair, if_neg (by decide), List.nil_append]
  by_cases h2 : c = ':'
  · subst h2; rw [show escValChar ':' = ['\\', ':'] from rfl]
    rw [List.cons_append, List.cons_append, unescape_esc_pair, if_neg (by decide), List.nil_append]
  by_cases h3 : c = '\''
  · subst h3; rw [show escValChar '\'' = ['\\', '\''] from rfl]
    rw [List.cons_append, List.cons_append, unescape_esc_pair, if_neg (by decide), List.nil_append]
  · have : escValChar c = [c] := by simp [escValChar, h1, h2, h3]
    rw [this, List.singleton_append, unescape_cons_ne c h1]

theorem unescape_flatMap_escTextChar (v : List Char) :
    engine_unescape (v.flatMap escTextChar) = v := by
  induction v with
  | nil => rfl
  | cons c s ih => rw [List.flatMap_cons, unescape_escTextChar, ih]

theorem unescape_flatMap_escValChar (v : List Char) :
    engine_unescape (v.flatMap escValChar) = v := by
  induction v with
  | nil => rfl
  | cons c s ih => rw [List.flatMap_cons, unescape_escValChar, ih]

/-- C3 counterexample: the style-field escaper `_escape_drawtext_value`
leaves the reserved characters `%` and newline unescaped, so the claim
that every string-valued style field has all five reserved characters
escaped is false (concrete inputs `"%"` and `"\n"`). -/
theorem escape_value_not_all_reserved :
    _escape_drawtext_value ['%'] = ['%'] ∧ _escape_drawtext_value ['\n'] = ['\n'] ∧
      ¬ escapesAllReserved _escape_drawtext_value := by
  decide

/-- C3 (amended): text content is escaped against all five reserved
characters (colon, backslash, quote, percent, newline) and round-trips
through the engine's unescaping; string-valued style fields are escaped
against colon, backslash and quote only (percent and newline pass through
unescaped), and they also round-trip through the engine's unescaping. -/
theorem drawtext_escaping_round_trip :
    (∀ v : List Char,
        engine_unescape (_escape_drawtext_text v) = v ∧
        engine_unescape (_escape_drawtext_value v) = v) ∧
      escapesAllReserved _escape_drawtext_text ∧
      (∀ c ∈ [':', '\\', '\''], _escape_drawtext_value [c] = ['\\', c]) := by
  refine ⟨fun v => ⟨?_, ?_⟩, by decide, by decide⟩
  · rw [escape_text_eq_flatMap, unescape_flatMap_escTextChar]
  · rw [escape_value_eq_flatMap, unescape_flatMap_escValChar]

/-- C8: the effective on-timeline duration is
`max(0, media.duration - trimStart - trimEnd) / max(0.01, speed)`; the
divisor is always strictly positive, so the division is well defined and
the (rational) result is a finite, nonnegative number. -/
theorem clip_duration_spec (clip : Clip) (media : MediaFile) :
    _clip_duration clip media
        = max 0 (media.duration - clip.trimStart - clip.trimEnd) / max 0.01 clip.speed
      ∧ 0 < max (0.01 : ℚ) clip.speed
      ∧ 0 ≤ _clip_duration clip media := by
  have hpos : (0 : ℚ) < max 0.01 clip.speed :=
    lt_of_lt_of_le (by norm_num) (le_max_left _ _)
  refine ⟨rfl, hpos, ?_⟩
  exact div_nonneg (le_max_left _ _) (le_of_lt hpos)

/-- C10: every character of the stored filename is alphanumeric (per the
supplied alphanumeric test) or one of `.`, `_`, `-`; in particular, as long
as the path separator `/` is not alphanumeric, it never survives into the
stored filename. -/
theorem safe_name_charset (isAlnum : Char → Bool) (h : isAlnum '/' = false)
    (name : List Char) :
    (∀ ch ∈ _safe_name isAlnum name, isAlnum ch = true ∨ ch ∈ ['.', '_', '-'])
      ∧ '/' ∉ _safe_name isAlnum name := by
  have hall : ∀ ch ∈ _safe_name isAlnum name, isAlnum ch = true ∨ ch ∈ ['.', '_', '-'] := by
    intro ch hch
    simp only [_safe_name, List.mem_map] at hch
    obtain ⟨c, _, heq⟩ := hch
    by_cases hg : (isAlnum c || c ∈ ['.', '_', '-']) = true
    · rw [if_pos hg] at heq; subst heq
      rcases Bool.or_eq_true_iff.mp hg with hl | hr
      · exact Or.inl hl
      · exact Or.inr (by simpa using hr)
    · rw [if_neg hg] at heq; subst heq
      exact Or.inr (by decide)
  refine ⟨hall, fun hmem => ?_⟩
  rcases hall '/' hmem with hl | hr
  · rw [h] at hl; exact Bool.false_ne_true hl
  · simp at hr

/-- Witness for C10 at a concrete client-supplied filename containing a
path separator. -/
theorem safe_name_charset_witness :
    (∀ ch ∈ _safe_name Char.isAlphanum ("a/b..mp4".toList),
        Char.isAlphanum ch = true ∨ ch ∈ ['.', '_', '-'])
      ∧ '/' ∉ _safe_name Char.isAlphanum ("a/b..mp4".toList) :=
  safe_name_charset Char.isAlphanum (by decide) ("a/b..mp4".toList)

end VibeCut

namespace VibeCut

/-! ### Stable sorting by `startTime` (server.py lines 166, 179, 192)

Python's `list.sort(key=...)` is a stable sort by the key; a stable
comparison sort is extensionally unique, so it is modelled by stable
insertion sort on the key. -/

def insort {α : Type} (key : α → ℚ) (x : α) : List α → List α
  | [] => [x]
  | y :: ys => if key x ≤ key y then x :: y :: ys else y :: insort key x ys

def pysort {α : Type} (key : α → ℚ) (l : List α) : List α :=
  l.foldr (insort key) []

theorem mem_insort {α : Type} (key : α → ℚ) (x a : α) (l : List α) :
    a ∈ insort key x l ↔ a = x ∨ a ∈ l := by
  induction l with
  | nil => simp [insort]
  | cons y ys ih =>
    by_cases h : key x ≤ key y
    · simp [insort, h]
    · simp only [insort, if_neg h, List.mem_cons, ih]
      tauto

theorem insort_pairwise {α : Type} (key : α → ℚ) (x : α) (l : List α)
    (h : l.Pairwise fun a b => key a ≤ key b) :
    (insort key x l).Pairwise (fun a b => key a ≤ key b) := by
  induction l with
  | nil => simp [insort]
  | cons y ys ih =>
    rcases List.pairwise_cons.mp h with ⟨hy, hys⟩
    by_cases hxy : key x ≤ key y
    · simp only [insort, if_pos hxy]
      refine List.pairwise_cons.mpr ⟨?_, h⟩
      intro b hb
      rcases List.mem_cons.mp hb with rfl | hb
      · exact hxy
      · exact le_trans hxy (hy b hb)
    · simp only [insort, if_neg hxy]
      refine List.pairwise_cons.mpr ⟨?_, ih hys⟩
      intro b hb
      rcases (mem_insort key x b ys).mp hb with rfl | hb
      · exact le_of_lt (not_le.mp hxy)
      · exact hy b hb

theorem insort_ne_nil {α : Type} (key : α → ℚ) (x : α) (l : List α) :
    insort key x l ≠ [] := by
  cases l with
  | nil => simp [insort]
  | cons y ys =>
    simp only [insort]
    split <;> simp

theorem filter_insort {α : Type} (key : α → ℚ) (x : α) (p : α → Bool)
    (hcomp : ∀ y, key y < key x → p x = true → p y = false) (l : List α) :
    (insort key x l).filter p = (x :: l).filter p := by
  induction l with
  | nil => rfl
  | cons y ys ih =>
    by_cases hxy : key x ≤ key y
    · simp only [insort, if_pos hxy]
    · simp only [insort, if_neg hxy]
      have hyx : key y < key x := not_le.mp hxy
      cases hpx : p x with
      | true =>
        have hpy : p y = false := hcomp y hyx hpx
        simp only [List.filter_cons, hpx, hpy, ih, Bool.false_eq_true, if_neg, if_pos,
          reduceIte]
      | false =>
        cases hpy : p y with
        | true => simp [List.filter_cons, hpx, hpy, ih]
        | false => simp [List.filter_cons, hpx, hpy, ih]

theorem pysort_pairwise {α : Type} (key : α → ℚ) (l : List α) :
    (pysort key l).Pairwise (fun a b => key a ≤ key b) := by
  induction l with
  | nil => simp [pysort]
  | cons x xs ih => exact insort_pairwise key x (pysort key xs) ih

theorem pysort_filter_key {α : Type} (key : α → ℚ) (q : ℚ) (l : List α) :
    (pysort key l).filter (fun a => key a == q) = l.filter (fun a => key a == q) := by
  induction l with
  | nil => rfl
  | cons x xs ih =>
    have hcomp : ∀ y, key y < key x → (key x == q) = true → (key y == q) = false := by
      intro y hlt hx
      have hxq : key x = q := by simpa using hx
      have : key y ≠ q := by rw [← hxq]; exact ne_of_lt hlt
      simpa using this
    have hstep := filter_insort key x (fun a => key a == q) hcomp (pysort key xs)
    have hfold : pysort key (x :: xs) = insort key x (pysort key xs) := rfl
    rw [hfold, hstep]
    cases hpx : (key x == q) <;> simp [List.filter_cons, hpx, ih]

theorem pysort_eq_nil_iff {α : Type} (key : α → ℚ) (l : List α) :
    pysort key l = [] ↔ l = [] := by
  cases l with
  | nil => simp [pysort]
  | cons x xs =>
    constructor
    · intro h
      exact absurd h (insort_ne_nil key x (pysort key xs))
    · intro h
      exact absurd h (by simp)

end VibeCut

namespace VibeCut

/-! ### Clip collection (server.py lines 142-195) -/

/-- `media_map = {m["id"]: m for m in project["mediaFiles"]}` — a later
entry with the same id overwrites an earlier one, hence the reverse find. -/
def media_map (p : Project) (mid : String) : Option MediaFile :=
  p.mediaFiles.reverse.find? fun m => m.id == mid

/-- `"video" in stream_types or (not stream_types and media.get("type") == "video")`
(and the same with "audio"); `probe` is `stream_types_by_media.get(·, set())`. -/
def has_stream (probe : String → List String) (kind : String) (m : MediaFile) : Bool :=
  (probe m.id).contains kind || ((probe m.id).isEmpty && (m.mtype == kind))

/-- The `all_video` / `all_audio` collection loops before sorting: tracks of
the given type in order, clips in track order, dropping clips whose media is
missing or lacks the required stream kind. -/
def collect_clips (probe : String → List String) (p : Project) (kind : String) :
    List (Clip × MediaFile) :=
  (p.tracks.filter fun t => t.ttype == kind).flatMap fun t =>
    t.clips.filterMap fun c =>
      match media_map p c.mediaId with
      | none => none
      | some m => if has_stream probe kind m then some (c, m) else none

def all_video (probe : String → List String) (p : Project) : List (Clip × MediaFile) :=
  pysort (fun x => x.1.startTime) (collect_clips probe p "video")

def all_audio (probe : String → List String) (p : Project) : List (Clip × MediaFile) :=
  pysort (fun x => x.1.startTime) (collect_clips probe p "audio")

/-! ### Text overlay collection (server.py lines 149-166) -/

structure OverlayItem where
  start : ℚ
  stop : ℚ
  overlay : TextOverlay
  deriving DecidableEq

def overlay_item (c : Clip) : Option OverlayItem :=
  match c.textOverlay with
  | none => none
  | some ov =>
    let start_time := c.startTime
    let duration := max 0 ov.duration
    let end_time := start_time + duration
    if end_time ≤ start_time then none else some ⟨start_time, end_time, ov⟩

def text_overlays (p : Project) : List OverlayItem :=
  pysort (fun item => item.start)
    ((p.tracks.filter fun t => t.ttype == "video").flatMap fun t =>
      t.clips.filterMap overlay_item)

/-- `if not all_video and not all_audio and not text_overlays: raise
HTTPException(status_code=400, detail="No clips to render")` (line 194). -/
def empty_timeline_error (probe : String → List String) (p : Project) : Bool :=
  (all_video probe p).isEmpty && (all_audio probe p).isEmpty && (text_overlays p).isEmpty

/-- C7: for both timeline types, the emitted clip sequence is sorted by
`startTime` ascending, and for every key value the subsequence of clips with
that `startTime` is exactly the subsequence in original input order (track
order, then clip order within track) — i.e. the sort is stable. -/
theorem timeline_order_spec (probe : String → List String) (p : Project) :
    ((all_video probe p).Pairwise (fun a b => a.1.startTime ≤ b.1.startTime)
      ∧ ∀ q : ℚ, (all_video probe p).filter (fun x => x.1.startTime == q)
          = (collect_clips probe p "video").filter (fun x => x.1.startTime == q))
    ∧ ((all_audio probe p).Pairwise (fun a b => a.1.startTime ≤ b.1.startTime)
      ∧ ∀ q : ℚ, (all_audio probe p).filter (fun x => x.1.startTime == q)
          = (collect_clips probe p "audio").filter (fun x => x.1.startTime == q)) :=
  ⟨⟨pysort_pairwise _ _, fun q => pysort_filter_key _ q _⟩,
   ⟨pysort_pairwise _ _, fun q => pysort_filter_key _ q _⟩⟩

theorem overlay_item_eq_none_iff (c : Clip) :
    overlay_item c = none ↔ ∀ ov, c.textOverlay = some ov → ov.duration ≤ 0 := by
  cases h : c.textOverlay with
  | none => simp [overlay_item, h]
  | some ov =>
    simp only [overlay_item, h]
    constructor
    · intro hnone ov' hov'
      have hov : ov = ov' := by injection hov'
      subst hov
      by_cases hle : c.startTime + max 0 ov.duration ≤ c.startTime
      · have hmax : max 0 ov.duration ≤ 0 := by linarith
        exact (max_le_iff.mp hmax).2
      · rw [if_neg hle] at hnone
        exact absurd hnone (by simp)
    · intro hall
      have hd : ov.duration ≤ 0 := hall ov rfl
      have hle : c.startTime + max 0 ov.duration ≤ c.startTime := by
        have : max 0 ov.duration = 0 := max_eq_left hd
        rw [this]; linarith
      rw [if_pos hle]

/-- C9: the "No clips to render" 400 error fires exactly when, after
filtering, the video sequence is empty, the audio sequence is empty, and no
video-track clip carries a text overlay with a positive-length window. -/
theorem empty_timeline_error_iff (probe : String → List String) (p : Project) :
    empty_timeline_error probe p = true ↔
      (all_video probe p = [] ∧ all_audio probe p = [] ∧
        ∀ t ∈ p.tracks, t.ttype = "video" → ∀ c ∈ t.clips,
          ∀ ov, c.textOverlay = some ov → ov.duration ≤ 0) := by
  unfold empty_timeline_error
  rw [Bool.and_eq_true, Bool.and_eq_true, List.isEmpty_iff, List.isEmpty_iff,
    List.isEmpty_iff, and_assoc]
  refine and_congr_right fun _ => and_congr_right fun _ => ?_
  unfold text_overlays
  rw [pysort_eq_nil_iff]
  rw [List.flatMap_eq_nil_iff]
  constructor
  · intro h t ht htype c hc ov hov
    have hmem : t ∈ p.tracks.filter fun t => t.ttype == "video" := by
      rw [List.mem_filter]
      exact ⟨ht, by simpa using htype⟩
    have hnil := h t hmem
    rw [List.filterMap_eq_nil_iff] at hnil
    have := hnil c hc
    exact (overlay_item_eq_none_iff c).mp this ov hov
  · intro h t ht
    rw [List.mem_filter] at ht
    rw [List.filterMap_eq_nil_iff]
    intro c hc
    exact (overlay_item_eq_none_iff c).mpr
      (h t ht.1 (by simpa using ht.2) c hc)

end VibeCut

namespace VibeCut

/-! ### Segment compiler (server.py lines 224-288 and 331-383)

Both per-type timelines share one walk: a cursor starting at 0, a filler
segment when `gap > tol` (tol = one frame period for video, 0.001 s for
audio), one segment per clip, cursor advanced by the clip's effective
duration, and a trailing filler when `output_duration - cursor > tol`.
Segments are abstracted to their kind and duration; the filter-graph text
they carry does not matter to the claims below. -/

inductive SegKind
  | filler
  | clip
  deriving DecidableEq

structure Seg where
  kind : SegKind
  dur : ℚ
  deriving DecidableEq

def build_segments (tol : ℚ) : List (ℚ × ℚ) → ℚ → List Seg × ℚ
  | [], current_t => ([], current_t)
  | (clip_start, clip_dur) :: rest, current_t =>
    let gap := clip_start - current_t
    let tail := build_segments tol rest (clip_start + clip_dur)
    ((if tol < gap then [⟨SegKind.filler, gap⟩] else [])
        ++ ⟨SegKind.clip, clip_dur⟩ :: tail.1,
      tail.2)

def timeline_segments (tol out_dur : ℚ) (items : List (ℚ × ℚ)) : List Seg :=
  let b := build_segments tol items 0
  let trail := out_dur - b.2
  b.1 ++ (if tol < trail then [⟨SegKind.filler, trail⟩] else [])

def frame_dur (framerate : ℤ) : ℚ := 1 / (framerate : ℚ)

def output_duration (p : Project) (framerate : ℤ) : ℚ :=
  max p.duration (1 / (framerate : ℚ))

def video_items (probe : String → List String) (p : Project) : List (ℚ × ℚ) :=
  (all_video probe p).map fun x => (x.1.startTime, _clip_duration x.1 x.2)

def audio_items (probe : String → List String) (p : Project) : List (ℚ × ℚ) :=
  (all_audio probe p).map fun x => (x.1.startTime, _clip_duration x.1 x.2)

def video_timeline (probe : String → List String) (p : Project) (framerate : ℤ) :
    List Seg :=
  timeline_segments (frame_dur framerate) (output_duration p framerate)
    (video_items probe p)

def audio_timeline (probe : String → List String) (p : Project) (framerate : ℤ) :
    List Seg :=
  timeline_segments (0.001 : ℚ) (output_duration p framerate) (audio_items probe p)

/-- The gap in front of each clip, as the walk's cursor sees it. -/
def gaps_from (current_t : ℚ) : List (ℚ × ℚ) → List ℚ
  | [] => []
  | (clip_start, clip_dur) :: rest =>
    (clip_start - current_t) :: gaps_from (clip_start + clip_dur) rest

def filler_durs (segs : List Seg) : List ℚ :=
  (segs.filter fun s => s.kind == SegKind.filler).map Seg.dur

def total_dur (segs : List Seg) : ℚ := (segs.map Seg.dur).sum

/-- Clips are chronological from a cursor position: each clip starts at or
after the cursor left by its predecessor. -/
def chrono_from (current_t : ℚ) : List (ℚ × ℚ) → Prop
  | [] => True
  | (clip_start, clip_dur) :: rest =>
    current_t ≤ clip_start ∧ chrono_from (clip_start + clip_dur) rest

theorem filler_durs_append (a b : List Seg) :
    filler_durs (a ++ b) = filler_durs a ++ filler_durs b := by
  simp [filler_durs]

theorem total_dur_append (a b : List Seg) :
    total_dur (a ++ b) = total_dur a + total_dur b := by
  simp [total_dur]

theorem filler_durs_nil : filler_durs [] = [] := rfl

theorem filler_durs_cons_filler (g : ℚ) (l : List Seg) :
    filler_durs (⟨SegKind.filler, g⟩ :: l) = g :: filler_durs l := by
  simp [filler_durs]

theorem filler_durs_cons_clip (d : ℚ) (l : List Seg) :
    filler_durs (⟨SegKind.clip, d⟩ :: l) = filler_durs l := by
  simp [filler_durs]

theorem build_fillers_eq (tol : ℚ) (items : List (ℚ × ℚ)) (current_t : ℚ) :
    filler_durs (build_segments tol items current_t).1
      = (gaps_from current_t items).filter fun g => decide (tol < g) := by
  induction items generalizing current_t with
  | nil => rfl
  | cons item rest ih =>
    obtain ⟨s, d⟩ := item
    by_cases h : tol < s - current_t
    · simp only [build_segments, if_pos h, filler_durs_append, List.cons_append,
        List.nil_append, filler_durs_cons_filler, filler_durs_cons_clip, filler_durs_nil,
        gaps_from, List.filter_cons]
      simp [h, ih]
    · simp only [build_segments, if_neg h, List.nil_append, filler_durs_cons_clip,
        gaps_from, List.filter_cons]
      simp [h, ih]

/-- C5: for both timeline types, the list of filler durations emitted in
front of clips is exactly the list of cursor gaps strictly exceeding the
type tolerance (one frame period `1/framerate` for video, `0.001` s for
audio).  Strictness means a gap exactly at the tolerance boundary emits no
filler. -/
theorem gap_filler_strict (framerate : ℤ) (items : List (ℚ × ℚ)) (current_t : ℚ) :
    (filler_durs (build_segments (frame_dur framerate) items current_t).1
        = (gaps_from current_t items).filter fun g => decide (frame_dur framerate < g))
    ∧ (filler_durs (build_segments (0.001 : ℚ) items current_t).1
        = (gaps_from current_t items).filter fun g => decide ((0.001 : ℚ) < g)) :=
  ⟨build_fillers_eq _ items current_t, build_fillers_eq _ items current_t⟩

theorem build_total_bounds (tol : ℚ) (htol : 0 ≤ tol) (items : List (ℚ × ℚ))
    (current_t : ℚ) (hch : chrono_from current_t items) :
    (build_segments tol items current_t).2 - current_t - items.length * tol
        ≤ total_dur (build_segments tol items current_t).1
    ∧ total_dur (build_segments tol items current_t).1
        ≤ (build_segments tol items current_t).2 - current_t := by
  induction items generalizing current_t with
  | nil => simp [build_segments, total_dur]
  | cons item rest ih =>
    obtain ⟨s, d⟩ := item
    obtain ⟨hcs, hch'⟩ := hch
    obtain ⟨ihl, ihu⟩ := ih (s + d) hch'
    simp only [total_dur] at ihl ihu
    by_cases h : tol < s - current_t
    · simp only [build_segments, if_pos h, total_dur_append, List.length_cons]
      simp only [total_dur, List.map_cons, List.map_nil, List.sum_cons, List.sum_nil]
      push_cast
      constructor <;> linarith
    · simp only [build_segments, if_neg h, total_dur_append, List.length_cons]
      simp only [total_dur, List.map_cons, List.map_nil, List.sum_cons, List.sum_nil]
      push_cast
      have hgap : s - current_t ≤ tol := not_lt.mp h
      constructor <;> linarith

/-- C6 (amended): for chronological clips that do not overrun the target
duration, the sum of emitted segment durations never exceeds the target
`out_dur = max(project.duration, 1/framerate)` and falls short of it by at
most `(n+1)·tol` — one tolerance per possibly-skipped gap plus the
possibly-skipped trailing filler; each sub-tolerance gap's duration is
dropped from the sum, so a fixed `1e-4` bound does not hold. -/
theorem timeline_total_duration (tol out_dur : ℚ) (items : List (ℚ × ℚ))
    (htol : 0 ≤ tol) (hch : chrono_from 0 items)
    (hend : (build_segments tol items 0).2 ≤ out_dur) :
    out_dur - ((items.length : ℚ) + 1) * tol
        ≤ total_dur (timeline_segments tol out_dur items)
    ∧ total_dur (timeline_segments tol out_dur items) ≤ out_dur := by
  obtain ⟨hl, hu⟩ := build_total_bounds tol htol items 0 hch
  simp only [total_dur] at hl hu
  unfold timeline_segments
  by_cases h : tol < out_dur - (build_segments tol items 0).2
  · simp only [if_pos h, total_dur_append]
    simp only [total_dur, List.map_cons, List.map_nil, List.sum_cons, List.sum_nil]
    constructor <;> linarith
  · simp only [if_neg h, total_dur_append]
    simp only [total_dur, List.map_nil, List.sum_nil]
    have htrail : out_dur - (build_segments tol items 0).2 ≤ tol := not_lt.mp h
    constructor <;> linarith

/-- Witness for C6 (amended) at one concrete video timeline: a single
1-second clip at time 0, project duration 1.03 s, framerate 30. -/
theorem timeline_total_duration_witness :
    ((103 : ℚ)/100 - (((([((0 : ℚ), (1 : ℚ))] : List (ℚ × ℚ)).length : ℚ)) + 1) * (1/30)
        ≤ total_dur (timeline_segments (1/30) (103/100) [((0 : ℚ), (1 : ℚ))]))
    ∧ total_dur (timeline_segments (1/30) (103/100) [((0 : ℚ), (1 : ℚ))]) ≤ 103/100 :=
  timeline_total_duration (1/30) (103/100) [((0 : ℚ), (1 : ℚ))]
    (by norm_num) (by constructor <;> norm_num [chrono_from]) (by norm_num [build_segments])

end VibeCut

namespace VibeCut

/-- Concrete project refuting C6: one 1-second video clip at time 0,
project duration 1.03 s. -/
def exProjectC6 : Project :=
  { duration := 103/100
  , mediaFiles := [{ id := "m1", mtype := "video", duration := 1 }]
  , tracks := [{ ttype := "video"
               , clips := [{ id := "c1", mediaId := "m1", startTime := 0,
                             trimStart := 0, trimEnd := 0, speed := 1,
                             reverse := false, textOverlay := none }] }] }

def exProbeC6 : String → List String := fun _ => ["video"]

/-- C6 counterexample: at framerate 30 the single clip ends 0.03 s before
the project end; 0.03 does not exceed the frame period 1/30 ≈ 0.0333, so no
trailing filler is emitted and the segment durations sum to 1.0, missing
the target `max(1.03, 1/30) = 1.03` by 0.03 > 1e-4. -/
theorem timeline_total_not_within_1e4 :
    ¬ |total_dur (video_timeline exProbeC6 exProjectC6 30)
        - output_duration exProjectC6 30| ≤ 1/10000 := by
  have hitems : video_items exProbeC6 exProjectC6 = [((0 : ℚ), (1 : ℚ))] := by
    norm_num [video_items, all_video, collect_clips, media_map, has_stream, pysort,
      insort, exProjectC6, exProbeC6, _clip_duration, max_def, List.filterMap_cons,
      List.filterMap_nil, List.foldr_cons, List.foldr_nil]
  have hout : output_duration exProjectC6 30 = 103/100 := by
    norm_num [output_duration, exProjectC6, max_def]
  have htl : video_timeline exProbeC6 exProjectC6 30 = [⟨SegKind.clip, 1⟩] := by
    rw [video_timeline, hitems, hout]
    norm_num [timeline_segments, build_segments, frame_dur]
  rw [htl, hout]
  have htot : total_dur [(⟨SegKind.clip, 1⟩ : Seg)] = 1 := by simp [total_dur]
  rw [htot]
  rw [show (1 : ℚ) - 103/100 = -(3/100) by norm_num]
  rw [abs_neg, abs_of_nonneg (by norm_num : (0:ℚ) ≤ 3/100)]
  norm_num

end VibeCut

namespace VibeCut

/-! ### `_atempo_chain` (server.py lines 71-84)

`while remaining > 2.0: append atempo=2; remaining /= 2.0`, then
`while remaining < 0.5: append atempo=0.5; remaining /= 0.5`, then one
final `atempo=remaining` stage.  Each loop is a recursive function
returning the emitted stage ratios together with the final `remaining`.
The second loop does not terminate for `remaining ≤ 0` (in Python either),
so it carries the positivity fact the caller establishes through
`max(0.01, speed)`. -/

def atempo_loop1 (remaining : ℚ) : List ℚ × ℚ :=
  if h : 2 < remaining then
    let p := atempo_loop1 (remaining / 2)
    (2 :: p.1, p.2)
  else ([], remaining)
termination_by (Int.ceil remaining).toNat
decreasing_by
  have h1 : remaining / 2 ≤ remaining - 1 := by linarith
  have h2 : Int.ceil (remaining / 2) ≤ Int.ceil (remaining - (1 : ℚ)) := Int.ceil_mono h1
  have h3 : Int.ceil (remaining - (1 : ℚ)) = Int.ceil remaining - 1 := by
    rw [show (1 : ℚ) = ((1 : ℤ) : ℚ) by norm_num, Int.ceil_sub_int]
  have h4 : (2 : ℤ) < Int.ceil remaining := by
    rw [Int.lt_ceil]; exact_mod_cast h
  rw [h3] at h2
  omega

def atempo_loop2 (remaining : ℚ) (hr : 0 < remaining) : List ℚ × ℚ :=
  if h : remaining < 0.5 then
    let p := atempo_loop2 (remaining / 0.5) (by positivity)
    (0.5 :: p.1, p.2)
  else ([], remaining)
termination_by (Int.ceil remaining⁻¹).toNat
decreasing_by
  have hu : 2 < remaining⁻¹ := by
    nlinarith [mul_inv_cancel₀ (ne_of_gt hr)]
  have hmul : remaining / (0.5 : ℚ) = remaining * 2 := by
    rw [div_eq_mul_inv]; norm_num
  have hrw : (remaining / (0.5 : ℚ))⁻¹ = remaining⁻¹ * 2⁻¹ := by
    rw [hmul, mul_inv]
  have h1 : remaining⁻¹ * 2⁻¹ ≤ remaining⁻¹ - 1 := by linarith
  have h2 : Int.ceil (remaining⁻¹ * 2⁻¹) ≤ Int.ceil (remaining⁻¹ - (1 : ℚ)) :=
    Int.ceil_mono h1
  have h3 : Int.ceil (remaining⁻¹ - (1 : ℚ)) = Int.ceil remaining⁻¹ - 1 := by
    rw [show (1 : ℚ) = ((1 : ℤ) : ℚ) by norm_num, Int.ceil_sub_int]
  have h4 : (2 : ℤ) < Int.ceil remaining⁻¹ := by
    rw [Int.lt_ceil]; exact_mod_cast hu
  rw [hrw]
  omega

end VibeCut

namespace VibeCut

theorem atempo_loop1_prod (r : ℚ) :
    ((atempo_loop1 r).1.prod) * (atempo_loop1 r).2 = r := by
  induction r using atempo_loop1.induct with
  | case1 r h ih =>
    rw [atempo_loop1, dif_pos h]
    simp only [List.prod_cons]
    nlinarith [ih]
  | case2 r h =>
    rw [atempo_loop1, dif_neg h]
    simp

theorem atempo_loop1_mem (r : ℚ) : ∀ x ∈ (atempo_loop1 r).1, x = 2 := by
  induction r using atempo_loop1.induct with
  | case1 r h ih =>
    rw [atempo_loop1, dif_pos h]
    intro x hx
    rcases List.mem_cons.mp hx with rfl | hx
    · rfl
    · exact ih x hx
  | case2 r h =>
    rw [atempo_loop1, dif_neg h]
    intro x hx
    exact absurd hx (List.not_mem_nil x)

theorem atempo_loop1_snd_le (r : ℚ) : (atempo_loop1 r).2 ≤ 2 := by
  induction r using atempo_loop1.induct with
  | case1 r h ih => rw [atempo_loop1, dif_pos h]; exact ih
  | case2 r h => rw [atempo_loop1, dif_neg h]; exact not_lt.mp h

theorem atempo_loop1_snd_pos (r : ℚ) (hr : 0 < r) : 0 < (atempo_loop1 r).2 := by
  induction r using atempo_loop1.induct with
  | case1 r h ih =>
    rw [atempo_loop1, dif_pos h]
    exact ih (by positivity)
  | case2 r h => rw [atempo_loop1, dif_neg h]; exact hr

theorem atempo_loop2_prod (r : ℚ) (hr : 0 < r) :
    ((atempo_loop2 r hr).1.prod) * (atempo_loop2 r hr).2 = r := by
  induction r, hr using atempo_loop2.induct with
  | case1 r hr h ih =>
    rw [atempo_loop2, dif_pos h]
    simp only [List.prod_cons]
    have hhalf : (0.5 : ℚ) ≠ 0 := by norm_num
    have : (0.5 : ℚ) * (r / 0.5) = r := by field_simp
    nlinarith [ih]
  | case2 r hr h =>
    rw [atempo_loop2, dif_neg h]
    simp

theorem atempo_loop2_mem (r : ℚ) (hr : 0 < r) :
    ∀ x ∈ (atempo_loop2 r hr).1, x = 0.5 := by
  induction r, hr using atempo_loop2.induct with
  | case1 r hr h ih =>
    rw [atempo_loop2, dif_pos h]
    intro x hx
    rcases List.mem_cons.mp hx with rfl | hx
    · rfl
    · exact ih x hx
  | case2 r hr h =>
    rw [atempo_loop2, dif_neg h]
    intro x hx
    exact absurd hx (List.not_mem_nil x)

theorem atempo_loop2_snd_bounds (r : ℚ) (hr : 0 < r) (hle : r ≤ 2) :
    (0.5 : ℚ) ≤ (atempo_loop2 r hr).2 ∧ (atempo_loop2 r hr).2 ≤ 2 := by
  induction r, hr using atempo_loop2.induct with
  | case1 r hr h ih =>
    rw [atempo_loop2, dif_pos h]
    refine ih ?_
    rw [show (0.5 : ℚ) = 1/2 by norm_num] at h
    rw [div_le_iff₀ (by norm_num : (0:ℚ) < 0.5)]
    nlinarith
  | case2 r hr h =>
    rw [atempo_loop2, dif_neg h]
    exact ⟨not_lt.mp h, hle⟩

def _atempo_chain (speed : ℚ) (hs : 0 < speed) : List ℚ :=
  (atempo_loop1 speed).1
    ++ (atempo_loop2 (atempo_loop1 speed).2 (atempo_loop1_snd_pos speed hs)).1
    ++ [(atempo_loop2 (atempo_loop1 speed).2 (atempo_loop1_snd_pos speed hs)).2]

/-- C1: the emitted tempo chain multiplies back to exactly the requested
speed, and every stage ratio lies in the valid atempo range [0.5, 2.0];
this holds for every positive requested speed (the caller always passes
`max(0.01, speed) > 0`). -/
theorem atempo_chain_round_trip (speed : ℚ) (hs : 0 < speed) :
    (_atempo_chain speed hs).prod = speed
    ∧ ∀ x ∈ _atempo_chain speed hs, (0.5 : ℚ) ≤ x ∧ x ≤ 2 := by
  constructor
  · unfold _atempo_chain
    rw [List.prod_append, List.prod_append, List.prod_singleton, mul_assoc,
      atempo_loop2_prod, atempo_loop1_prod]
  · intro x hx
    unfold _atempo_chain at hx
    rcases List.mem_append.mp hx with hx1 | hx2
    · rcases List.mem_append.mp hx1 with ha | hb
      · have hx2 := atempo_loop1_mem speed x ha
        subst hx2; norm_num
      · have hx2 := atempo_loop2_mem _ _ x hb
        subst hx2; norm_num
    · have hx3 : x = (atempo_loop2 (atempo_loop1 speed).2
          (atempo_loop1_snd_pos speed hs)).2 := by simpa using hx2
      subst hx3
      exact atempo_loop2_snd_bounds _ _ (atempo_loop1_snd_le speed)

/-- Witness for C1 at the far-out-of-range speed 0.1. -/
theorem atempo_chain_round_trip_witness :
    ((_atempo_chain (1/10) (by norm_num)).prod = 1/10)
    ∧ ∀ x ∈ _atempo_chain (1/10) (by norm_num), (0.5 : ℚ) ≤ x ∧ x ≤ 2 :=
  atempo_chain_round_trip (1/10) (by norm_num)

end VibeCut

namespace VibeCut

theorem atempo_loop1_two : atempo_loop1 (2 : ℚ) = ([], 2) := by
  rw [atempo_loop1, dif_neg (by norm_num)]

theorem atempo_loop1_four : atempo_loop1 (4 : ℚ) = ([2], 2) := by
  rw [atempo_loop1, dif_pos (by norm_num)]
  norm_num [atempo_loop1_two]

theorem atempo_loop2_two (hr : 0 < (2 : ℚ)) : atempo_loop2 (2 : ℚ) hr = ([], 2) := by
  rw [atempo_loop2, dif_neg (by norm_num)]

theorem atempo_chain_four_eq : _atempo_chain 4 (by norm_num) = [2, 2] := by
  unfold _atempo_chain
  simp only [atempo_loop1_four, atempo_loop2_two]
  rfl

/-- C2 counterexample: for `speed = 4.0` the emitted chain is NOT the three
operations [2.0, 2.0, 1.0] claimed (the loop condition is the strict
`remaining > 2.0`, so 4.0 is halved only once). -/
theorem atempo_chain_four_not_three_stages :
    _atempo_chain 4 (by norm_num) ≠ [2, 2, 1] := by
  rw [atempo_chain_four_eq]
  simp

/-- C2 (amended): for `speed = 4.0` the emitted chain is exactly two
operations — one bounded-max stage 2.0 followed by the remainder stage at
ratio 2.0 (4.0 → 2.0, which is already inside [0.5, 2.0]). -/
theorem atempo_chain_four_stages : _atempo_chain 4 (by norm_num) = [2, 2] :=
  atempo_chain_four_eq

end VibeCut

namespace VibeCut

/-! ### Text overlay compositor (server.py lines 290-329) and video output
binding (line 389)

The loop enumerates the sorted overlay items with index `i`, skips items
whose (escaped) content is empty, and otherwise emits a drawtext stage from
the running `source_label` to `out_label`, where `out_label` is
`"vout_text"` when `i == len(text_overlays) - 1` and `"vtxt{i}"` otherwise.
The final `-map` uses `"vout_text"` whenever at least one stage was
emitted (`has_text_filters`). -/

structure Stage where
  src : String
  out : String
  deriving DecidableEq

def drawtext_stages_aux (total : ℕ) : List (ℕ × TextOverlay) → String → List Stage
  | [], _ => []
  | (i, ov) :: rest, source_label =>
    if _escape_drawtext_text ov.content = [] then
      drawtext_stages_aux total rest source_label
    else
      let out_label := if i = total - 1 then "vout_text" else "vtxt" ++ toString i
      ⟨source_label, out_label⟩ :: drawtext_stages_aux total rest out_label

def drawtext_stages (items : List OverlayItem) : List Stage :=
  drawtext_stages_aux items.length (items.map OverlayItem.overlay).enum "vout"

def has_text_filters (items : List OverlayItem) : Bool :=
  !(drawtext_stages items).isEmpty

/-- The label the plan binds as video output when video segments exist
(server.py line 389). -/
def video_map_label (items : List OverlayItem) : String :=
  if has_text_filters items then "vout_text" else "vout"

def ovHi : TextOverlay :=
  { content := ['h', 'i'], color := [], fontFamily := []
  , backgroundColor := none, duration := 1 }

def ovEmpty : TextOverlay :=
  { content := [], color := [], fontFamily := []
  , backgroundColor := none, duration := 1 }

/-- Two overlay windows in start-time order; the later one has empty
content and is skipped by the compositor loop. -/
def exOverlaysC4 : List OverlayItem := [⟨0, 1, ovHi⟩, ⟨2, 3, ovEmpty⟩]

/-- C4: with two overlays where the last (by start time) has empty content,
the compositor emits a single stage `vout → vtxt0`, yet the plan binds
`"vout_text"` as video output — a label no emitted stage produces, so the
claimed property "the plan binds the label produced by the last emitted
overlay stage" fails here (and the engine is handed a dangling label). -/
theorem overlay_output_binding_bug :
    drawtext_stages exOverlaysC4 = [⟨"vout", "vtxt0"⟩]
    ∧ video_map_label exOverlaysC4 = "vout_text"
    ∧ video_map_label exOverlaysC4 ∉ (drawtext_stages exOverlaysC4).map Stage.out := by
  decide

end VibeCut
